import Mathlib

/-!
Verification of the UCI protocol layer of the lc0 chess engine
(`src/chess/uciloop.cc`): keyword tokenizer, command grammar parser,
option-setting sub-parser, request dispatcher and response formatter.

The C++ code is embedded shallowly: strings are `List Char` (with `String`
wrappers where convenient), `size_t` positions are `Nat`, C++ exceptions
become `Except UciErr`, and the calls made on the external engine
controller are collected into an explicit trace.
-/

set_option maxRecDepth 4000

namespace Lc0

deriving instance DecidableEq for Except

/-- Set of characters treated as whitespace by `std::isspace` in the default
locale (space, \t, \n, \v, \f, \r), which is also the separator set
`" \t\n\r\f\v"` used by `ParseCommand` in uciloop.cc. -/
def isSpace (c : Char) : Bool :=
  c == ' ' || c == '\t' || c == '\n' || c == Char.ofNat 11 || c == Char.ofNat 12 || c == '\r'

/-- Modelled from the spec: `utils::string::Trim` (declared in utils/string.h,
whose implementation is not part of this slice) removes leading and trailing
whitespace. Here: trailing first, then leading; the order is immaterial. -/
def strTrim (s : List Char) : List Char :=
  (s.reverse.dropWhile isSpace).reverse.dropWhile isSpace

/-- Modelled from the spec: whitespace tokenization ("split on whitespace"),
as performed by `StrSplitAtWhitespace` (utils/string.h, not in this slice)
and by `std::istringstream >> token` in `ParseCommand`: the maximal
whitespace-free non-empty chunks, in order. -/
def splitWs (s : List Char) : List (List Char) :=
  (s.splitOnP isSpace).filter (fun t => !t.isEmpty)

/-- String-level trim wrapper. -/
def Trim (s : String) : String := ⟨strTrim s.data⟩

/-- String-level whitespace split wrapper (`StrSplitAtWhitespace`). -/
def StrSplitAtWhitespace (s : String) : List String :=
  (splitWs s.data).map (fun l => ⟨l⟩)

/-- The keyword occurs in `text` at position `pos`:
`text.substr(pos, kw.length) == kw` with `pos + kw.length <= text.length`. -/
def IsOcc (text kw : List Char) (pos : Nat) : Bool :=
  decide (pos + kw.length ≤ text.length) && decide ((text.drop pos).take kw.length = kw)

/-- Guarded character test before an occurrence, as in uciloop.cc:
`pos == 0 || isspace(text[pos - 1])`. -/
def spaceBefore (text : List Char) (pos : Nat) : Bool :=
  decide (pos = 0) || isSpace (text.getD (pos - 1) 'x')

/-- Guarded character test after an occurrence, as in uciloop.cc:
`pos + kw.length == text.length || isspace(text[pos + kw.length])`. -/
def spaceAfter (text kw : List Char) (pos : Nat) : Bool :=
  decide (pos + kw.length = text.length) || isSpace (text.getD (pos + kw.length) 'x')

/-- The occurrence at `pos` is bounded by whitespace or string edge on both
sides (the spec's notion of a bounded keyword occurrence). -/
def IsBoundedOcc (text kw : List Char) (pos : Nat) : Bool :=
  IsOcc text kw pos && spaceBefore text pos && spaceAfter text kw pos

/-- Smallest `q` with `off ≤ q < off + fuel` satisfying `p`. -/
def scanFirst (p : Nat → Bool) : Nat → Nat → Option Nat
  | 0, _ => none
  | fuel + 1, off => if p off then some off else scanFirst p fuel (off + 1)

/-- Largest `q ≤ pos` satisfying `p`. -/
def scanLast (p : Nat → Bool) : Nat → Option Nat
  | 0 => if p 0 then some 0 else none
  | pos + 1 => if p (pos + 1) then some (pos + 1) else scanLast p pos

/-- `std::string_view::find(kw, off)`: least occurrence of `kw` starting at
or after `off` (for the empty keyword: `off` itself whenever `off ≤ length`). -/
def svFind (text kw : List Char) (off : Nat) : Option Nat :=
  scanFirst (IsOcc text kw) (text.length + 1 - off) off

/-- `std::string_view::rfind(kw, pos)`: greatest occurrence of `kw` starting
at or before `pos` (for the empty keyword: `min pos length`). -/
def svRfind (text kw : List Char) (pos : Nat) : Option Nat :=
  scanLast (IsOcc text kw) pos

/-- Forward branch of `FindBoundedKeywordOccurrence` (uciloop.cc:106-118):
repeatedly `find` from the current offset and return the first
whitespace-bounded hit; on an unbounded hit restart one past it. The fuel
argument only bounds the iteration count; `text.length + 1` always suffices
because the offset grows strictly and the loop stops at `text.length`. -/
def findFwdAux (text kw : List Char) : Nat → Nat → Option Nat
  | 0, _ => none
  | fuel + 1, off =>
    if off < text.length then
      match svFind text kw off with
      | none => none
      | some pos =>
        if spaceBefore text pos && spaceAfter text kw pos then some pos
        else findFwdAux text kw fuel (pos + 1)
    else none

/-- Backward branch of `FindBoundedKeywordOccurrence` (uciloop.cc:80-105),
translated statement by statement. `i` is the loop variable; one iteration:
`cs0 = i - 1`; break when `cs0 < kw.length - 1` (in `size_t` arithmetic an
empty keyword makes `kw.length - 1` wrap around, so the break always fires:
modelled by the `kw.length = 0` case); when the window is short, `continue`
if the keyword is longer than the text (which, in `size_t` terms, is exactly
when `text.length - cs0 < kw.length` and `kw.length > text.length`),
otherwise clamp the scan position to `text.length - kw.length`; `rfind`; on
a miss `continue`; on a bounded hit return it; at position 0 break;
otherwise set `i = pos` and let `--i` run. NOTE: the source's check
`pos < search_start_pos` (line 91) has an empty body and therefore has no
effect; it is faithfully omitted here. The fuel only bounds iterations and
`text.length + 1` suffices since `i` strictly decreases. -/
def findLastAux (text kw : List Char) (searchStart : Nat) : Nat → Nat → Option Nat
  | 0, _ => none
  | fuel + 1, i =>
    if i ≤ searchStart then none
    else
      let cs0 := i - 1
      if kw.length = 0 then none
      else if cs0 + 1 < kw.length then none
      else if kw.length > text.length then findLastAux text kw searchStart fuel (i - 1)
      else
        let cs := if text.length - cs0 < kw.length then text.length - kw.length else cs0
        match svRfind text kw cs with
        | none => findLastAux text kw searchStart fuel (i - 1)
        | some pos =>
          if spaceBefore text pos && spaceAfter text kw pos then some pos
          else if pos = 0 then none
          else findLastAux text kw searchStart fuel (pos - 1)

/-- `FindBoundedKeywordOccurrence(text, keyword, search_start_pos, find_last)`
from uciloop.cc:76-120. `none` models `std::string_view::npos`. -/
def FindBoundedKeywordOccurrence (text kw : List Char) (searchStart : Nat)
    (findLast : Bool) : Option Nat :=
  if findLast then findLastAux text kw searchStart (text.length + 1) text.length
  else findFwdAux text kw (text.length + 1) searchStart

/-- One constructor per `throw Exception(...)` site of uciloop.cc, so that
distinct error kinds of the source stay distinguishable. -/
inductive UciErr
  | unknownCommand (cmd : String)
  | unexpectedToken (tok : String)
  | malformedSetoptionName
  | missingValue
  | emptyName
  | emptyValue
  | emptyContext
  | positionXor
  | unexpectedTrailing (v : String)
  | expectedValue (key : String)
  | invalidValue (v : String)
  | outOfRangeValue (v : String)
  | internalError
  | unknownDispatch (cmd : String)
deriving DecidableEq, Repr

/-- Result of the option-setting sub-parser: the returned map has exactly the
keys "name" and "value" and, optionally, "context" (uciloop.cc:123-186). -/
structure SetOptionParams where
  name : String
  value : String
  context : Option String
deriving DecidableEq, Repr

/-- `ParseSetOption` (uciloop.cc:123-186): grammar
`name <NAME> value <VALUE> [context <CONTEXT>]`. Requires the trimmed
arguments to start with the literal `name` followed by whitespace; the first
whitespace-bounded `value` ends the name; the last whitespace-bounded
`context` (if any) splits value from context; empty name/value/context are
errors. -/
def ParseSetOption (commandArgs : String) : Except UciErr SetOptionParams :=
  let args := strTrim commandArgs.data
  if ¬ (args.take 4 = "name".data ∧ 4 < args.length ∧ isSpace (args.getD 4 'x')) then
    .error .malformedSetoptionName
  else
    let a1 := strTrim (args.drop 4)
    match FindBoundedKeywordOccurrence a1 "value".data 0 false with
    | none => .error .missingValue
    | some vpos =>
      let nameChars := strTrim (a1.take vpos)
      if nameChars = [] then .error .emptyName
      else
        let a2 := strTrim (a1.drop (vpos + 5))
        match FindBoundedKeywordOccurrence a2 "context".data 0 true with
        | some cpos =>
          let valueChars := strTrim (a2.take cpos)
          let ctxChars := strTrim (a2.drop (cpos + 7))
          if ctxChars = [] then .error .emptyContext
          else if valueChars = [] then .error .emptyValue
          else .ok ⟨⟨nameChars⟩, ⟨valueChars⟩, some ⟨ctxChars⟩⟩
        | none =>
          let valueChars := strTrim a2
          if valueChars = [] then .error .emptyValue
          else .ok ⟨⟨nameChars⟩, ⟨valueChars⟩, none⟩

/-- `kKnownCommands` (uciloop.cc:58-73): the registry of recognized command
names with their recognized parameter keywords. Note the eleventh entry
"fen", present in the registry although `DispatchCommand` has no branch
for it. -/
def kKnownCommands : List (String × List String) := [
  ("uci", []),
  ("isready", []),
  ("setoption", ["context", "name", "value"]),
  ("ucinewgame", []),
  ("position", ["fen", "startpos", "moves"]),
  ("go", ["infinite", "wtime", "btime", "winc", "binc", "movestogo", "depth",
          "mate", "nodes", "movetime", "searchmoves", "ponder"]),
  ("stop", []),
  ("ponderhit", []),
  ("quit", []),
  ("xyzzy", []),
  ("fen", [])]

/-- State of the keyword-accumulation loop of `ParseCommand`
(uciloop.cc:217-235): the parameter map built so far, the keyword the
`value_ptr` currently points at, and the pending separator
(`accumulated_whitespace`). -/
structure TokState where
  params : List (String × String)
  target : Option String
  accWs : String
deriving Repr

/-- `params[token]` followed by `*value_ptr = ""`: reset the keyword's slot
to the empty string, inserting the key if absent. -/
def setParam : List (String × String) → String → String → List (String × String)
  | [], k, v => [(k, v)]
  | (k0, v0) :: rest, k, v =>
    if k0 = k then (k0, v) :: rest else (k0, v0) :: setParam rest k v

/-- `*value_ptr += add` where `value_ptr` points at key `k` of the map. -/
def appendParam : List (String × String) → String → String → List (String × String)
  | [], _, _ => []
  | (k0, v0) :: rest, k, add =>
    if k0 = k then (k0, v0 ++ add) :: rest else (k0, v0) :: appendParam rest k add

/-- One iteration of the token loop of `ParseCommand` (uciloop.cc:222-235):
a recognized keyword resets its slot and becomes the accumulation target;
any other token is appended to the current target (separated by a single
space after the first appended token) or is an "unexpected token" error when
no target is set. -/
def stepTok (kws : List String) (s : TokState) (tok : String) : Except UciErr TokState :=
  if tok ∈ kws then .ok ⟨setParam s.params tok "", some tok, ""⟩
  else
    match s.target with
    | none => .error (.unexpectedToken tok)
    | some t => .ok ⟨appendParam s.params t (s.accWs ++ tok), some t, " "⟩

/-- The whole token loop, starting from the empty map with no target. -/
def parseTokens (kws : List String) (toks : List String) :
    Except UciErr (List (String × String)) :=
  (toks.foldlM (stepTok kws) ⟨[], none, ""⟩).map TokState.params

/-- The command name: the leading whitespace-free prefix of the trimmed
line (uciloop.cc:198-203, via `find_first_of(" \t\n\r\f\v")`). -/
def firstTok (l : List Char) : String := ⟨l.takeWhile (fun c => !isSpace c)⟩

/-- The argument tail: everything after the command name, trimmed
(uciloop.cc:204-205). -/
def restAfterTok (l : List Char) : String := ⟨strTrim (l.dropWhile (fun c => !isSpace c))⟩

/-- `ParseCommand` (uciloop.cc:188-238): trim the line; an empty line is a
no-op (`ok none`); the first whitespace-delimited token is the command name,
looked up in the registry ("unknown command" when absent — the inner
empty-command test is the source's dead `cmd_name.empty()` check);
`setoption` keeps its raw argument tail under the key `args_for_setoption`;
every other command runs the keyword-accumulation loop over the whitespace
tokens of the tail. -/
def ParseCommand (line : String) :
    Except UciErr (Option (String × List (String × String))) :=
  if strTrim line.data = [] then .ok none
  else
    match kKnownCommands.lookup (firstTok (strTrim line.data)) with
    | none =>
      if firstTok (strTrim line.data) = "" ∧ restAfterTok (strTrim line.data) = "" then .ok none
      else .error (.unknownCommand (firstTok (strTrim line.data)))
    | some kws =>
      if firstTok (strTrim line.data) = "setoption" then
        .ok (some (firstTok (strTrim line.data),
          [("args_for_setoption", restAfterTok (strTrim line.data))]))
      else
        (parseTokens kws (StrSplitAtWhitespace (restAfterTok (strTrim line.data)))).map
          (fun ps => some (firstTok (strTrim line.data), ps))

/-- `GetOrEmpty` (uciloop.cc:240-246). -/
def GetOrEmpty (ps : List (String × String)) (key : String) : String :=
  (ps.lookup key).getD ""

/-- `ContainsKey` (uciloop.cc:267-270). -/
def ContainsKey (ps : List (String × String)) (key : String) : Bool :=
  (ps.lookup key).isSome

/-- Outcome of `std::stoi`. -/
inductive StoiResult
  | ok (n : Int)
  | invalidArgument
  | outOfRange
deriving DecidableEq, Repr

/-- Decimal value of a digit string. -/
def digitsToNat (ds : List Char) : Nat :=
  ds.foldl (fun acc c => 10 * acc + (c.toNat - 48)) 0

/-- Modelled from the C++ standard library: `std::stoi(str)` in base 10 skips
leading whitespace, accepts one optional sign, and needs at least one
decimal digit (else `invalid_argument`); it converts the maximal leading
digit run, ignoring any trailing characters, and reports `out_of_range`
when the value does not fit a 32-bit `int`. -/
def stoi (s : String) : StoiResult :=
  let s1 := s.data.dropWhile isSpace
  let signAndRest : Bool × List Char :=
    match s1 with
    | '-' :: r => (true, r)
    | '+' :: r => (false, r)
    | _ => (false, s1)
  let digs := signAndRest.2.takeWhile (fun c => c.isDigit)
  if digs = [] then .invalidArgument
  else
    let n : Int := (if signAndRest.1 then -1 else 1) * (digitsToNat digs : Int)
    if n < -(2 ^ 31) ∨ 2 ^ 31 - 1 < n then .outOfRange else .ok n

/-- `GetNumeric` (uciloop.cc:248-265): looks the key up (its absence is an
internal error), rejects an empty value with "expected value after <key>"
(an exception that passes through the numeric catch clauses), and otherwise
maps `std::stoi`'s two failure modes to "invalid value" and
"out of range value". -/
def GetNumeric (ps : List (String × String)) (key : String) : Except UciErr Int :=
  match ps.lookup key with
  | none => .error .internalError
  | some v =>
    if v = "" then .error (.expectedValue key)
    else
      match stoi v with
      | .invalidArgument => .error (.invalidValue v)
      | .outOfRange => .error (.outOfRangeValue v)
      | .ok n => .ok n

/-- Modelled from the spec: the `GoParams` record (declared in uciloop.h,
not part of this slice) — optional integer search limits plus the
`infinite`/`ponder` flags and the search-move list; absence of a field
means "unset", not zero. -/
structure GoParams where
  wtime : Option Int := none
  btime : Option Int := none
  winc : Option Int := none
  binc : Option Int := none
  movestogo : Option Int := none
  depth : Option Int := none
  mate : Option Int := none
  nodes : Option Int := none
  movetime : Option Int := none
  infinite : Bool := false
  ponder : Bool := false
  searchmoves : List String := []
deriving DecidableEq, Repr

/-- Modelled from the spec: `ChessBoard::kStartposFen` (chess/board.h, not
part of this slice), the well-known standard starting position. -/
def kStartposFen : String :=
  "rnbqkbnr/pppppppp/8/8/8/8/PPPPPPPP/RNBQKBNR w KQkq - 0 1"

/-- One call on the external engine controller or option store, in the order
`DispatchCommand` makes them (the responder's own output lines are not part
of this trace). -/
inductive EngCall
  | ensureReady
  | newGame
  | setPosition (fen : String) (moves : List String)
  | go (g : GoParams)
  | stop
  | ponderHit
  | setUciOption (name value ctx : String)
deriving DecidableEq, Repr

/-- The nine numeric `go` keywords with their target fields, in the order of
the `UCIGOOPTION` macro expansions (uciloop.cc:334-342). -/
def goNumSetters : List (String × (GoParams → Int → GoParams)) := [
  ("wtime", fun g n => { g with wtime := some n }),
  ("btime", fun g n => { g with btime := some n }),
  ("winc", fun g n => { g with winc := some n }),
  ("binc", fun g n => { g with binc := some n }),
  ("movestogo", fun g n => { g with movestogo := some n }),
  ("depth", fun g n => { g with depth := some n }),
  ("mate", fun g n => { g with mate := some n }),
  ("nodes", fun g n => { g with nodes := some n }),
  ("movetime", fun g n => { g with movetime := some n })]

/-- The `UCIGOOPTION` expansions: for each keyword present in the parameters,
parse its value with `GetNumeric` and store it in the matching field;
errors abort the whole construction, as the C++ exception does. -/
def applyNumKeys (ps : List (String × String)) :
    List (String × (GoParams → Int → GoParams)) → GoParams → Except UciErr GoParams
  | [], g => .ok g
  | (key, set) :: rest, g =>
    if ContainsKey ps key then
      match GetNumeric ps key with
      | .error e => .error e
      | .ok n => applyNumKeys ps rest (set g n)
    else applyNumKeys ps rest g

/-- The `go` branch of `DispatchCommand` (uciloop.cc:312-343) up to the
`engine_->Go` call: `infinite` and `ponder` must carry no trailing value,
`searchmoves` is whitespace-split, then the nine numeric keywords are
applied; any error aborts the construction, as the C++ exception does. -/
def buildGo (ps : List (String × String)) : Except UciErr GoParams :=
  let g0 : GoParams := {}
  match (if ContainsKey ps "infinite" then
      if GetOrEmpty ps "infinite" ≠ "" then
        Except.error (.unexpectedTrailing (GetOrEmpty ps "infinite"))
      else Except.ok { g0 with infinite := true }
    else Except.ok g0 : Except UciErr GoParams) with
  | .error e => .error e
  | .ok g1 =>
    let g2 :=
      if ContainsKey ps "searchmoves" then
        { g1 with searchmoves := StrSplitAtWhitespace (GetOrEmpty ps "searchmoves") }
      else g1
    match (if ContainsKey ps "ponder" then
        if GetOrEmpty ps "ponder" ≠ "" then
          Except.error (.unexpectedTrailing (GetOrEmpty ps "ponder"))
        else Except.ok { g2 with ponder := true }
      else Except.ok g2 : Except UciErr GoParams) with
    | .error e => .error e
    | .ok g3 => applyNumKeys ps goNumSetters g3

/-- `DispatchCommand` (uciloop.cc:281-357). The first component is the trace
of engine-controller / option-store calls made for this line, in order; the
second is the C++ return value (`false` only for `quit`) or the exception.
The purely textual responder outputs of the `uci`, `isready` and `xyzzy`
branches have no engine effect and are not traced. -/
def DispatchCommand (cmd : String) (ps : List (String × String)) :
    List EngCall × Except UciErr Bool :=
  match cmd with
  | "uci" => ([], .ok true)
  | "isready" => ([.ensureReady], .ok true)
  | "setoption" =>
    match ParseSetOption (GetOrEmpty ps "args_for_setoption") with
    | .error e => ([], .error e)
    | .ok so => ([.setUciOption so.name so.value (so.context.getD "")], .ok true)
  | "ucinewgame" => ([.newGame], .ok true)
  | "position" =>
    if ContainsKey ps "fen" = ContainsKey ps "startpos" then ([], .error .positionXor)
    else
      let moves := StrSplitAtWhitespace (GetOrEmpty ps "moves")
      let fen := GetOrEmpty ps "fen"
      ([.setPosition (if fen = "" then kStartposFen else fen) moves], .ok true)
  | "go" =>
    match buildGo ps with
    | .error e => ([], .error e)
    | .ok g => ([.go g], .ok true)
  | "stop" => ([.stop], .ok true)
  | "ponderhit" => ([.ponderHit], .ok true)
  | "xyzzy" => ([], .ok true)
  | "quit" => ([], .ok false)
  | other => ([], .error (.unknownDispatch other))

/-- `UciLoop::ProcessLine` (uciloop.cc:359-363): parse, then dispatch; a
no-op line dispatches nothing and continues; a parse error reaches no
dispatch. -/
def ProcessLine (line : String) : List EngCall × Except UciErr Bool :=
  match ParseCommand line with
  | .error e => ([], .error e)
  | .ok none => ([], .ok true)
  | .ok (some (cmd, ps)) => DispatchCommand cmd ps

/-- Decimal digits of a natural number, most significant first; the first
argument is structural fuel, sufficient whenever it is at least the number
itself. -/
def natDigits : Nat → Nat → List Char
  | 0, n => [Char.ofNat (48 + n % 10)]
  | fuel + 1, n =>
    if n < 10 then [Char.ofNat (48 + n)]
    else natDigits fuel (n / 10) ++ [Char.ofNat (48 + n % 10)]

/-- Modelled from the C++ standard library: `std::to_string` on an integer. -/
def intToStr (n : Int) : String :=
  if n < 0 then ⟨'-' :: natDigits n.natAbs n.natAbs⟩ else ⟨natDigits n.toNat n.toNat⟩

/-- Modelled from the spec: a move value as the formatter sees it — opaque
except for `Move::ToString(bool chess960)` (two renderings selected by the
castling-display option) and a null test for the ponder slot. -/
structure Move where
  repr960 : String
  reprStd : String
  isNull : Bool
deriving DecidableEq, Repr

/-- `Move::ToString(is_chess960)`. -/
def Move.render (m : Move) (chess960 : Bool) : String :=
  if chess960 then m.repr960 else m.reprStd

/-- The three display options registered by
`StringUciResponder::PopulateParams` (uciloop.cc:365-370), with their
registered defaults; the responder is modelled with its options dictionary
attached. -/
structure EngineOptions where
  chess960 : Bool := false
  showWdl : Bool := true
  showMovesleft : Bool := false
deriving DecidableEq, Repr

/-- Modelled from the spec: the best-move event record (declared outside
this slice) as `OutputBestMove` reads it — chosen move, ponder move with a
null test, `player` and `game_id` integers, optional side-to-move flag. -/
structure BestMoveInfo where
  bestmove : Move
  ponder : Move
  player : Int := -1
  game_id : Int := -1
  is_black : Option Bool := none
deriving DecidableEq, Repr

/-- Modelled from the spec: the win/draw/loss triple of a thinking event. -/
structure Wdl where
  w : Int
  d : Int
  l : Int
deriving DecidableEq, Repr

/-- Modelled from the spec: a thinking event record (declared outside this
slice) as `OutputThinkingInfo` reads it; negative numeric counters and
`none` optionals mean "unset". -/
structure ThinkingInfo where
  player : Int := -1
  game_id : Int := -1
  is_black : Option Bool := none
  depth : Int := -1
  seldepth : Int := -1
  time : Int := -1
  nodes : Int := -1
  mate : Option Int := none
  score : Option Int := none
  wdl : Option Wdl := none
  moves_left : Option Int := none
  hashfull : Int := -1
  nps : Int := -1
  tb_hits : Int := -1
  multipv : Int := -1
  pv : List Move := []
  comment : String := ""
deriving DecidableEq, Repr

/-- `StringUciResponder::OutputBestMove` (uciloop.cc:385-394): the chosen
move always, then conditionally ponder, player, gameid and side, in this
order; `player`/`game_id` are emitted unless equal to `-1`. -/
def OutputBestMove (opts : EngineOptions) (info : BestMoveInfo) : String :=
  "bestmove " ++ info.bestmove.render opts.chess960
  ++ (if ¬ info.ponder.isNull then " ponder " ++ info.ponder.render opts.chess960 else "")
  ++ (if info.player ≠ -1 then " player " ++ intToStr info.player else "")
  ++ (if info.game_id ≠ -1 then " gameid " ++ intToStr info.game_id else "")
  ++ (match info.is_black with
      | some b => " side " ++ (if b then "black" else "white")
      | none => "")

/-- One line of `StringUciResponder::OutputThinkingInfo` (uciloop.cc:399-429),
with every conditional append in source order. -/
def FormatThinkingInfo (opts : EngineOptions) (info : ThinkingInfo) : String :=
  "info"
  ++ (if info.player ≠ -1 then " player " ++ intToStr info.player else "")
  ++ (if info.game_id ≠ -1 then " gameid " ++ intToStr info.game_id else "")
  ++ (match info.is_black with
      | some b => " side " ++ (if b then "black" else "white")
      | none => "")
  ++ (if info.depth ≥ 0 then " depth " ++ intToStr (max info.depth 1) else "")
  ++ (if info.seldepth ≥ 0 then " seldepth " ++ intToStr info.seldepth else "")
  ++ (if info.time ≥ 0 then " time " ++ intToStr info.time else "")
  ++ (if info.nodes ≥ 0 then " nodes " ++ intToStr info.nodes else "")
  ++ (match info.mate with
      | some m => " score mate " ++ intToStr m
      | none => "")
  ++ (match info.score with
      | some s => " score cp " ++ intToStr s
      | none => "")
  ++ (match info.wdl with
      | some t =>
        if opts.showWdl then
          " wdl " ++ intToStr t.w ++ " " ++ intToStr t.d ++ " " ++ intToStr t.l
        else ""
      | none => "")
  ++ (match info.moves_left with
      | some m => if opts.showMovesleft then " movesleft " ++ intToStr m else ""
      | none => "")
  ++ (if info.hashfull ≥ 0 then " hashfull " ++ intToStr info.hashfull else "")
  ++ (if info.nps ≥ 0 then " nps " ++ intToStr info.nps else "")
  ++ (if info.tb_hits ≥ 0 then " tbhits " ++ intToStr info.tb_hits else "")
  ++ (if info.multipv ≥ 0 then " multipv " ++ intToStr info.multipv else "")
  ++ (if info.pv ≠ [] then
        " pv" ++ info.pv.foldl (fun acc m => acc ++ " " ++ m.render opts.chess960) ""
      else "")
  ++ (if info.comment ≠ "" then " string " ++ info.comment else "")

/-- `StringUciResponder::OutputThinkingInfo` over a batch of events: one
line per record, formatted independently. -/
def OutputThinkingInfo (opts : EngineOptions) (infos : List ThinkingInfo) : List String :=
  infos.map (FormatThinkingInfo opts)

/-- A tagged protocol field of a thinking-info line; the tag records which
source field produced it, making "this field was emitted" unambiguous. -/
inductive InfoField
  | player (n : Int)
  | gameid (n : Int)
  | side (black : Bool)
  | fdepth (n : Int)
  | seldepth (n : Int)
  | ftime (n : Int)
  | fnodes (n : Int)
  | scoreMate (n : Int)
  | scoreCp (n : Int)
  | wdl (w d l : Int)
  | movesleft (n : Int)
  | hashfull (n : Int)
  | nps (n : Int)
  | tbhits (n : Int)
  | multipv (n : Int)
  | pv (moves : List Move)
  | comment (c : String)
deriving DecidableEq, Repr

/-- The fields a thinking-info line consists of, in emission order. -/
def thinkingFieldList (opts : EngineOptions) (info : ThinkingInfo) : List InfoField :=
  (if info.player ≠ -1 then [.player info.player] else [])
  ++ (if info.game_id ≠ -1 then [.gameid info.game_id] else [])
  ++ (match info.is_black with | some b => [.side b] | none => [])
  ++ (if info.depth ≥ 0 then [.fdepth (max info.depth 1)] else [])
  ++ (if info.seldepth ≥ 0 then [.seldepth info.seldepth] else [])
  ++ (if info.time ≥ 0 then [.ftime info.time] else [])
  ++ (if info.nodes ≥ 0 then [.fnodes info.nodes] else [])
  ++ (match info.mate with | some m => [.scoreMate m] | none => [])
  ++ (match info.score with | some s => [.scoreCp s] | none => [])
  ++ (match info.wdl with
      | some t => if opts.showWdl then [.wdl t.w t.d t.l] else []
      | none => [])
  ++ (match info.moves_left with
      | some m => if opts.showMovesleft then [.movesleft m] else []
      | none => [])
  ++ (if info.hashfull ≥ 0 then [.hashfull info.hashfull] else [])
  ++ (if info.nps ≥ 0 then [.nps info.nps] else [])
  ++ (if info.tb_hits ≥ 0 then [.tbhits info.tb_hits] else [])
  ++ (if info.multipv ≥ 0 then [.multipv info.multipv] else [])
  ++ (if info.pv ≠ [] then [.pv info.pv] else [])
  ++ (if info.comment ≠ "" then [.comment info.comment] else [])

/-- Protocol text of one tagged thinking-info field. -/
def renderInfoField (c960 : Bool) : InfoField → String
  | .player n => " player " ++ intToStr n
  | .gameid n => " gameid " ++ intToStr n
  | .side black => " side " ++ (if black then "black" else "white")
  | .fdepth n => " depth " ++ intToStr n
  | .seldepth n => " seldepth " ++ intToStr n
  | .ftime n => " time " ++ intToStr n
  | .fnodes n => " nodes " ++ intToStr n
  | .scoreMate n => " score mate " ++ intToStr n
  | .scoreCp n => " score cp " ++ intToStr n
  | .wdl w d l => " wdl " ++ intToStr w ++ " " ++ intToStr d ++ " " ++ intToStr l
  | .movesleft n => " movesleft " ++ intToStr n
  | .hashfull n => " hashfull " ++ intToStr n
  | .nps n => " nps " ++ intToStr n
  | .tbhits n => " tbhits " ++ intToStr n
  | .multipv n => " multipv " ++ intToStr n
  | .pv moves => " pv" ++ moves.foldl (fun acc m => acc ++ " " ++ m.render c960) ""
  | .comment c => " string " ++ c

/-- A tagged optional field of a best-move line. -/
inductive BestMoveField
  | ponderMove (m : Move)
  | player (n : Int)
  | gameid (n : Int)
  | side (black : Bool)
deriving DecidableEq, Repr

/-- The optional fields a best-move line appends after the move, in order. -/
def bestMoveFieldList (info : BestMoveInfo) : List BestMoveField :=
  (if ¬ info.ponder.isNull then [.ponderMove info.ponder] else [])
  ++ (if info.player ≠ -1 then [.player info.player] else [])
  ++ (if info.game_id ≠ -1 then [.gameid info.game_id] else [])
  ++ (match info.is_black with | some b => [.side b] | none => [])

/-- Protocol text of one tagged best-move field. -/
def renderBestMoveField (c960 : Bool) : BestMoveField → String
  | .ponderMove m => " ponder " ++ m.render c960
  | .player n => " player " ++ intToStr n
  | .gameid n => " gameid " ++ intToStr n
  | .side black => " side " ++ (if black then "black" else "white")

/-- Concatenation of a list of strings. -/
def catStr (l : List String) : String := l.foldr (fun a b => a ++ b) ""

/-- Tokens joined by single spaces, as the accumulation loop produces them. -/
def joinSp : List String → String
  | [] => ""
  | [t] => t
  | t :: rest => t ++ " " ++ joinSp rest

/-!  Lemmas about association-list primitives. -/

theorem lookup_cons_eq {β : Type} (k : String) (b : β) (es : List (String × β)) :
    ((k, b) :: es).lookup k = some b := by
  rw [List.lookup_cons]
  rw [show (k == k) = true by simp]

theorem lookup_cons_ne {β : Type} {q k : String} (b : β) (es : List (String × β))
    (h : q ≠ k) : ((k, b) :: es).lookup q = es.lookup q := by
  rw [List.lookup_cons]
  rw [show (q == k) = false by simp [h]]

theorem lookup_mem_keys {β : Type} {k : String} {l : List (String × β)} {v : β}
    (h : l.lookup k = some v) : k ∈ l.map Prod.fst := by
  induction l with
  | nil => simp at h
  | cons hd tl ih =>
    obtain ⟨k0, v0⟩ := hd
    by_cases hk : k = k0
    · simp [hk]
    · rw [lookup_cons_ne v0 tl hk] at h
      simp [ih h]

theorem lookup_eq_none_of_not_mem {β : Type} {k : String} {l : List (String × β)}
    (h : k ∉ l.map Prod.fst) : l.lookup k = none := by
  cases hl : l.lookup k with
  | none => rfl
  | some v => exact absurd (lookup_mem_keys hl) h

theorem lookup_setParam_self (ps : List (String × String)) (k v : String) :
    (setParam ps k v).lookup k = some v := by
  induction ps with
  | nil => simp [setParam, lookup_cons_eq]
  | cons hd tl ih =>
    obtain ⟨k0, v0⟩ := hd
    by_cases hk : k0 = k
    · subst hk
      rw [setParam, if_pos rfl, lookup_cons_eq]
    · rw [setParam, if_neg hk, lookup_cons_ne _ _ (fun h => hk h.symm)]
      exact ih

theorem lookup_setParam_ne (ps : List (String × String)) (k v q : String)
    (h : q ≠ k) : (setParam ps k v).lookup q = ps.lookup q := by
  induction ps with
  | nil => simp [setParam, lookup_cons_ne _ _ h]
  | cons hd tl ih =>
    obtain ⟨k0, v0⟩ := hd
    by_cases hk : k0 = k
    · subst hk
      rw [setParam, if_pos rfl, lookup_cons_ne _ _ h, lookup_cons_ne _ _ h]
    · rw [setParam, if_neg hk]
      by_cases hq : q = k0
      · subst hq
        rw [lookup_cons_eq, lookup_cons_eq]
      · rw [lookup_cons_ne _ _ hq, lookup_cons_ne _ _ hq]
        exact ih

theorem lookup_appendParam_self (ps : List (String × String)) (k add : String) :
    (appendParam ps k add).lookup k = (ps.lookup k).map (fun v => v ++ add) := by
  induction ps with
  | nil => simp [appendParam]
  | cons hd tl ih =>
    obtain ⟨k0, v0⟩ := hd
    by_cases hk : k0 = k
    · subst hk
      rw [appendParam, if_pos rfl, lookup_cons_eq, lookup_cons_eq]
      rfl
    · rw [appendParam, if_neg hk, lookup_cons_ne _ _ (fun h => hk h.symm),
        lookup_cons_ne _ _ (fun h => hk h.symm)]
      exact ih

theorem lookup_appendParam_ne (ps : List (String × String)) (k add q : String)
    (h : q ≠ k) : (appendParam ps k add).lookup q = ps.lookup q := by
  induction ps with
  | nil => simp [appendParam]
  | cons hd tl ih =>
    obtain ⟨k0, v0⟩ := hd
    by_cases hk : k0 = k
    · subst hk
      rw [appendParam, if_pos rfl, lookup_cons_ne _ _ h, lookup_cons_ne _ _ h]
    · rw [appendParam, if_neg hk]
      by_cases hq : q = k0
      · subst hq
        rw [lookup_cons_eq, lookup_cons_eq]
      · rw [lookup_cons_ne _ _ hq, lookup_cons_ne _ _ hq]
        exact ih

theorem keys_appendParam (ps : List (String × String)) (k add : String) :
    (appendParam ps k add).map Prod.fst = ps.map Prod.fst := by
  induction ps with
  | nil => simp [appendParam]
  | cons hd tl ih =>
    obtain ⟨k0, v0⟩ := hd
    by_cases hk : k0 = k
    · simp [appendParam, hk]
    · simp [appendParam, hk, ih]

theorem mem_keys_setParam {ps : List (String × String)} {k v q : String}
    (hm : q ∈ (setParam ps k v).map Prod.fst) : q ∈ ps.map Prod.fst ∨ q = k := by
  induction ps with
  | nil =>
    simp [setParam] at hm
    exact Or.inr hm
  | cons hd tl ih =>
    obtain ⟨k0, v0⟩ := hd
    by_cases hk : k0 = k
    · subst hk
      rw [setParam, if_pos rfl] at hm
      simp at hm
      rcases hm with hm | hm
      · exact Or.inl (by simp [hm])
      · exact Or.inl (by simp [hm])
    · rw [setParam, if_neg hk] at hm
      simp only [List.map_cons, List.mem_cons] at hm ⊢
      rcases hm with hm | hm
      · exact Or.inl (Or.inl hm)
      · rcases ih hm with h2 | h2
        · exact Or.inl (Or.inr h2)
        · exact Or.inr h2

theorem keys_setParam_nodup (ps : List (String × String)) (k v : String)
    (h : (ps.map Prod.fst).Nodup) : ((setParam ps k v).map Prod.fst).Nodup := by
  induction ps with
  | nil => simp [setParam]
  | cons hd tl ih =>
    obtain ⟨k0, v0⟩ := hd
    by_cases hk : k0 = k
    · subst hk
      rw [setParam, if_pos rfl]
      simpa using h
    · rw [setParam, if_neg hk]
      simp only [List.map_cons, List.nodup_cons] at h ⊢
      refine ⟨fun hm => ?_, ih h.2⟩
      rcases mem_keys_setParam hm with h2 | h2
      · exact h.1 h2
      · exact hk h2

/-!  Lemmas about the keyword-accumulation loop of `ParseCommand`. -/

theorem exceptBind_ok {ε α β : Type} (a : α) (f : α → Except ε β) :
    ((Except.ok a : Except ε α) >>= f) = f a := rfl

theorem exceptBind_error {ε α β : Type} (e : ε) (f : α → Except ε β) :
    ((Except.error e : Except ε α) >>= f) = .error e := rfl

/-- Text a run of appended tokens adds to the current value, given the
pending separator `w`. -/
def accW (w : String) : List String → String
  | [] => ""
  | t :: rest => w ++ t ++ accW " " rest

theorem accW_sp (run : List String) :
    accW " " run = if run = [] then "" else " " ++ joinSp run := by
  induction run with
  | nil => rfl
  | cons t rest ih =>
    cases rest with
    | nil => simp [accW, joinSp]
    | cons r rs =>
      rw [accW, ih]
      simp only [if_neg (List.cons_ne_nil r rs), if_neg (List.cons_ne_nil t (r :: rs))]
      rw [show joinSp (t :: r :: rs) = t ++ " " ++ joinSp (r :: rs) from rfl]
      simp [String.append_assoc]

theorem accW_empty (run : List String) : accW "" run = joinSp run := by
  cases run with
  | nil => rfl
  | cons t rest =>
    rw [accW, accW_sp]
    cases rest with
    | nil => simp [joinSp]
    | cons r rs =>
      simp only [if_neg (List.cons_ne_nil r rs), String.empty_append]
      rw [show joinSp (t :: r :: rs) = t ++ " " ++ joinSp (r :: rs) from rfl]
      rw [String.append_assoc]

theorem foldlM_run (kws : List String) (run : List String) :
    ∀ (ps : List (String × String)) (k v w : String),
    (∀ t ∈ run, t ∉ kws) → ps.lookup k = some v →
    ∃ ps2 w2, run.foldlM (stepTok kws) ⟨ps, some k, w⟩ = .ok ⟨ps2, some k, w2⟩ ∧
      ps2.lookup k = some (v ++ accW w run) := by
  induction run with
  | nil =>
    intro ps k v w _ hv
    exact ⟨ps, w, rfl, by simpa [accW] using hv⟩
  | cons t rest ih =>
    intro ps k v w hrun hv
    have ht : t ∉ kws := hrun t (by simp)
    have hv2 : (appendParam ps k (w ++ t)).lookup k = some (v ++ (w ++ t)) := by
      rw [lookup_appendParam_self, hv]
      rfl
    obtain ⟨ps2, w2, hfold, hval⟩ := ih (appendParam ps k (w ++ t)) k (v ++ (w ++ t)) " "
      (fun x hx => hrun x (by simp [hx])) hv2
    refine ⟨ps2, w2, ?_, ?_⟩
    · rw [List.foldlM_cons,
        show stepTok kws ⟨ps, some k, w⟩ t = .ok ⟨appendParam ps k (w ++ t), some k, " "⟩ by
          simp [stepTok, ht],
        exceptBind_ok]
      exact hfold
    · rw [hval, accW]
      simp [String.append_assoc]

theorem foldlM_preserve (kws : List String) (k : String) :
    ∀ (ts : List String) (ps : List (String × String)) (tgt : Option String) (w : String)
      (res : TokState),
    k ∉ ts → tgt ≠ some k →
    ts.foldlM (stepTok kws) ⟨ps, tgt, w⟩ = .ok res →
    res.params.lookup k = ps.lookup k := by
  intro ts
  induction ts with
  | nil =>
    intro ps tgt w res _ _ h
    cases h
    rfl
  | cons t rest ih =>
    intro ps tgt w res hnot htgt h
    have htk : t ≠ k := fun he => hnot (by simp [he])
    have hrest : k ∉ rest := fun he => hnot (by simp [he])
    rw [List.foldlM_cons] at h
    by_cases hkw : t ∈ kws
    · rw [show stepTok kws ⟨ps, tgt, w⟩ t = .ok ⟨setParam ps t "", some t, ""⟩ by
        simp [stepTok, hkw], exceptBind_ok] at h
      rw [ih _ _ _ _ hrest (by simp [htk]) h]
      exact lookup_setParam_ne _ _ _ _ (fun he => htk he.symm)
    · cases tgt with
      | none =>
        rw [show stepTok kws ⟨ps, none, w⟩ t = .error (.unexpectedToken t) by
          simp [stepTok, hkw], exceptBind_error] at h
        cases h
      | some t0 =>
        have ht0 : t0 ≠ k := fun he => htgt (by rw [he])
        rw [show stepTok kws ⟨ps, some t0, w⟩ t =
            .ok ⟨appendParam ps t0 (w ++ t), some t0, " "⟩ by
          simp [stepTok, hkw], exceptBind_ok] at h
        rw [ih _ _ _ _ hrest htgt h]
        exact lookup_appendParam_ne _ _ _ _ (Ne.symm ht0)

theorem foldlM_nodup (kws : List String) :
    ∀ (ts : List String) (s res : TokState),
    (s.params.map Prod.fst).Nodup →
    ts.foldlM (stepTok kws) s = .ok res →
    (res.params.map Prod.fst).Nodup := by
  intro ts
  induction ts with
  | nil =>
    intro s res hs h
    cases h
    exact hs
  | cons t rest ih =>
    intro s res hs h
    rw [List.foldlM_cons] at h
    by_cases hkw : t ∈ kws
    · rw [show stepTok kws s t = .ok ⟨setParam s.params t "", some t, ""⟩ by
        simp [stepTok, hkw], exceptBind_ok] at h
      exact ih _ _ (keys_setParam_nodup _ _ _ hs) h
    · cases htgt : s.target with
      | none =>
        rw [show stepTok kws s t = .error (.unexpectedToken t) by
          simp [stepTok, hkw, htgt], exceptBind_error] at h
        cases h
      | some t0 =>
        rw [show stepTok kws s t = .ok ⟨appendParam s.params t0 (s.accWs ++ t), some t0, " "⟩ by
          simp [stepTok, hkw, htgt], exceptBind_ok] at h
        exact ih _ _ (by rw [keys_appendParam]; exact hs) h

theorem exceptMap_ok {ε α β : Type} (a : α) (f : α → β) :
    (Except.ok a : Except ε α).map f = .ok (f a) := rfl

theorem exceptMap_error {ε α β : Type} (e : ε) (f : α → β) :
    (Except.error e : Except ε α).map f = .error e := rfl

/-- C10: in the generic grammar parser, every occurrence of a recognized
keyword resets that keyword's slot to empty and redirects accumulation, so
a successfully parsed token list maps a keyword to the space-joined tokens
following only its last occurrence; the parameter map never has duplicate
keys; and `"position startpos moves e2e4 moves d2d4"` parses with
`moves = "d2d4"`. -/
theorem uci_c10_accumulation :
    (∀ (kws pre run rest : List String) (k : String) (ps : List (String × String)),
      k ∈ kws → (∀ t ∈ run, t ∉ kws) → k ∉ rest →
      (rest = [] ∨ ∃ k2 r2, rest = k2 :: r2 ∧ k2 ∈ kws) →
      parseTokens kws (pre ++ k :: (run ++ rest)) = .ok ps →
      ps.lookup k = some (joinSp run))
  ∧ (∀ (kws toks : List String) (ps : List (String × String)),
      parseTokens kws toks = .ok ps → (ps.map Prod.fst).Nodup)
  ∧ ParseCommand "position startpos moves e2e4 moves d2d4" =
      .ok (some ("position", [("startpos", ""), ("moves", "d2d4")])) := by
  refine ⟨?_, ?_, ?_⟩
  · intro kws pre run rest k ps hk hrun hkrest hrest hparse
    unfold parseTokens at hparse
    cases hfold : (pre ++ k :: (run ++ rest)).foldlM (stepTok kws) ⟨[], none, ""⟩ with
    | error e =>
      rw [hfold, exceptMap_error] at hparse
      cases hparse
    | ok sfin =>
      rw [hfold, exceptMap_ok] at hparse
      injection hparse with h
      subst h
      rw [List.foldlM_append] at hfold
      cases hpre : pre.foldlM (stepTok kws) ⟨[], none, ""⟩ with
      | error e =>
        rw [hpre, exceptBind_error] at hfold
        cases hfold
      | ok s0 =>
        rw [hpre, exceptBind_ok] at hfold
        rw [List.foldlM_cons] at hfold
        rw [show stepTok kws s0 k = .ok ⟨setParam s0.params k "", some k, ""⟩ by
          simp [stepTok, hk], exceptBind_ok] at hfold
        rw [List.foldlM_append] at hfold
        obtain ⟨ps2, w2, hrunfold, hval⟩ :=
          foldlM_run kws run (setParam s0.params k "") k "" ""
            hrun (lookup_setParam_self _ _ _)
        rw [hrunfold, exceptBind_ok] at hfold
        have hval2 : ps2.lookup k = some (joinSp run) := by
          rw [hval, String.empty_append, accW_empty]
        rcases hrest with rfl | ⟨k2, r2, rfl, hk2⟩
        · cases hfold
          exact hval2
        · have hk2k : k2 ≠ k := fun he => hkrest (by simp [he])
          rw [List.foldlM_cons] at hfold
          rw [show stepTok kws ⟨ps2, some k, w2⟩ k2 = .ok ⟨setParam ps2 k2 "", some k2, ""⟩ by
            simp [stepTok, hk2], exceptBind_ok] at hfold
          have hpk : k ∉ r2 := fun he => hkrest (by simp [he])
          have hpres := foldlM_preserve kws k r2 (setParam ps2 k2 "") (some k2) "" sfin hpk
            (by simp [hk2k]) hfold
          rw [hpres, lookup_setParam_ne _ _ _ _ (Ne.symm hk2k)]
          exact hval2
  · intro kws toks ps hparse
    unfold parseTokens at hparse
    cases hfold : toks.foldlM (stepTok kws) ⟨[], none, ""⟩ with
    | error e =>
      rw [hfold, exceptMap_error] at hparse
      cases hparse
    | ok sfin =>
      rw [hfold, exceptMap_ok] at hparse
      injection hparse with h
      subst h
      exact foldlM_nodup kws toks _ _ (by simp) hfold
  · decide

/-- Witness for C10 at a concrete input: the last `moves` wins and the
resulting map has no duplicate keys. -/
theorem uci_c10_witness :
    (([("startpos", ""), ("moves", "d2d4")] : List (String × String)).lookup "moves"
        = some (joinSp ["d2d4"]))
    ∧ (([("startpos", ""), ("moves", "d2d4")] : List (String × String)).map Prod.fst).Nodup := by
  constructor
  · exact uci_c10_accumulation.1 ["fen", "startpos", "moves"] ["startpos", "moves", "e2e4"]
      ["d2d4"] [] "moves" [("startpos", ""), ("moves", "d2d4")]
      (by decide) (by decide) (by decide) (Or.inl rfl) (by decide)
  · exact uci_c10_accumulation.2.1 ["fen", "startpos", "moves"]
      ["startpos", "moves", "e2e4", "moves", "d2d4"] [("startpos", ""), ("moves", "d2d4")]
      (by decide)

/-!  Error handling: an error dispatches nothing (claim C9). -/

/-- An `Except` result is an error. -/
def isErr {ε α : Type} : Except ε α → Bool
  | .error _ => true
  | .ok _ => false

theorem dispatch_error_no_calls (cmd : String) (ps : List (String × String)) :
    isErr (DispatchCommand cmd ps).2 = true → (DispatchCommand cmd ps).1 = [] := by
  unfold DispatchCommand
  split
  · intro _; rfl
  · intro h; simp [isErr] at h
  · cases hx : ParseSetOption (GetOrEmpty ps "args_for_setoption") with
    | error e => intro _; rfl
    | ok so => intro h; simp [isErr] at h
  · intro h; simp [isErr] at h
  · by_cases hx : ContainsKey ps "fen" = ContainsKey ps "startpos"
    · rw [if_pos hx]
      intro _; rfl
    · rw [if_neg hx]
      intro h; simp [isErr] at h
  · cases hx : buildGo ps with
    | error e => intro _; rfl
    | ok g => intro h; simp [isErr] at h
  · intro h; simp [isErr] at h
  · intro h; simp [isErr] at h
  · intro _; rfl
  · intro _; rfl
  · intro _; rfl

/-- Auxiliary: a token list whose head exists and is not a space gives a
non-empty first token. -/
theorem dropWhile_head_false {α : Type} {p : α → Bool} :
    ∀ (l : List α) (c : α) (cs : List α), l.dropWhile p = c :: cs → p c = false := by
  intro l
  induction l with
  | nil => intro c cs h; cases h
  | cons a as ih =>
    intro c cs h
    rw [List.dropWhile_cons] at h
    by_cases hp : p a = true
    · rw [if_pos hp] at h
      exact ih _ _ h
    · rw [if_neg hp] at h
      cases h
      simpa using hp

theorem firstTok_ne_empty {l : List Char} (h : strTrim l ≠ []) :
    firstTok (strTrim l) ≠ "" := by
  intro hc
  rcases he : strTrim l with _ | ⟨c, cs⟩
  · exact h he
  · have hcsp : isSpace c = false := dropWhile_head_false _ _ _ (by rw [← he]; rfl)
    rw [he] at hc
    unfold firstTok at hc
    rw [List.takeWhile_cons, hcsp] at hc
    exact absurd (congrArg String.data hc) (by simp)

/-- C9: whenever processing a line ends in an error — unknown command,
grammar violation, setoption error, position fen/startpos violation, flag
trailing-argument error, or numeric conversion failure — the trace of
engine-controller and option-store calls for that line is empty: validation
completes before any external call. -/
theorem uci_c9_no_partial (line : String) :
    isErr (ProcessLine line).2 = true → (ProcessLine line).1 = [] := by
  unfold ProcessLine
  cases hp : ParseCommand line with
  | error e => intro _; rfl
  | ok o =>
    cases o with
    | none => intro h; simp [isErr] at h
    | some c =>
      obtain ⟨cmd, ps⟩ := c
      exact dispatch_error_no_calls cmd ps

/-- Witness for C9: `"position"` (with neither fen nor startpos) errors and
its engine-call trace is empty. -/
theorem uci_c9_witness :
    isErr (ProcessLine "position").2 = true ∧ (ProcessLine "position").1 = [] :=
  ⟨by decide, uci_c9_no_partial "position" (by decide)⟩

/-!  The command registry (claim C2). -/

/-- C2 counterexample: the line "fen", whose first token is none of the
spec's ten command names, parses successfully instead of failing with an
"unknown command" error. -/
theorem uci_c2_cex :
    ParseCommand "fen" = .ok (some ("fen", []))
    ∧ ("fen" : String) ∉ (["uci", "isready", "setoption", "ucinewgame", "position",
        "go", "stop", "ponderhit", "quit", "xyzzy"] : List String) :=
  ⟨by decide, by decide⟩

/-- C2 (amended): the registry accepts exactly eleven command names — the
spec's ten plus "fen"; every parsed command name is one of them; any line
whose first token is a different non-empty string fails at parse time with
"unknown command", before any dispatch, with an empty engine-call trace; a
"fen" line parses but the dispatcher itself rejects it with an
unknown-command error and no engine call. -/
theorem uci_c2_commands :
    kKnownCommands.map Prod.fst =
      ["uci", "isready", "setoption", "ucinewgame", "position", "go", "stop",
       "ponderhit", "quit", "xyzzy", "fen"]
  ∧ (∀ (line : String) (cmd : String) (ps : List (String × String)),
      ParseCommand line = .ok (some (cmd, ps)) → cmd ∈ kKnownCommands.map Prod.fst)
  ∧ (∀ line : String, strTrim line.data ≠ [] →
      firstTok (strTrim line.data) ∉ kKnownCommands.map Prod.fst →
      ProcessLine line = ([], .error (.unknownCommand (firstTok (strTrim line.data)))))
  ∧ ProcessLine "fen" = ([], .error (.unknownDispatch "fen")) := by
  refine ⟨by decide, ?_, ?_, by decide⟩
  · intro line cmd ps h
    unfold ParseCommand at h
    by_cases hl : strTrim line.data = []
    · rw [if_pos hl] at h
      cases h
    · rw [if_neg hl] at h
      cases hlook : kKnownCommands.lookup (firstTok (strTrim line.data)) with
      | none =>
        rw [hlook] at h
        by_cases hc : firstTok (strTrim line.data) = "" ∧ restAfterTok (strTrim line.data) = ""
        · rw [if_pos hc] at h
          cases h
        · rw [if_neg hc] at h
          cases h
      | some kws =>
        rw [hlook] at h
        dsimp only at h
        have hmem := lookup_mem_keys hlook
        by_cases hso : firstTok (strTrim line.data) = "setoption"
        · rw [if_pos hso] at h
          simp only [Except.ok.injEq, Option.some.injEq, Prod.mk.injEq] at h
          rw [← h.1]
          exact hmem
        · rw [if_neg hso] at h
          cases hpt : parseTokens kws (StrSplitAtWhitespace (restAfterTok (strTrim line.data))) with
          | error e =>
            rw [hpt, exceptMap_error] at h
            cases h
          | ok ps2 =>
            rw [hpt, exceptMap_ok] at h
            simp only [Except.ok.injEq, Option.some.injEq, Prod.mk.injEq] at h
            rw [← h.1]
            exact hmem
  · intro line hne hnm
    unfold ProcessLine ParseCommand
    rw [if_neg hne, lookup_eq_none_of_not_mem hnm,
      if_neg (fun hc => firstTok_ne_empty hne hc.1)]

/-- Witness for C2 at a concrete unknown command. -/
theorem uci_c2_witness :
    ProcessLine "hello world" = ([], .error (.unknownCommand "hello")) :=
  uci_c2_commands.2.2.1 "hello world" (by decide) (by decide)

/-!  The setoption sub-parser on the spec's worked examples (claim C1). -/

/-- C1: `"name Foo value Bar"` gives name "Foo", value "Bar" and no context;
`"name Foo Bar value Baz Qux context ctx1"` gives name "Foo Bar", value
"Baz Qux" and context "ctx1" (the last whitespace-bounded "context" wins);
and `"name MyContextOption value 5"` gives name "MyContextOption", value "5"
and no context, because "Context" embedded in the larger token
"MyContextOption" is not whitespace-bounded. -/
theorem uci_c1_setoption_examples :
    ParseSetOption "name Foo value Bar" = .ok ⟨"Foo", "Bar", none⟩
    ∧ ParseSetOption "name Foo Bar value Baz Qux context ctx1" =
        .ok ⟨"Foo Bar", "Baz Qux", some "ctx1"⟩
    ∧ ParseSetOption "name MyContextOption value 5" =
        .ok ⟨"MyContextOption", "5", none⟩ :=
  ⟨by decide, by decide, by decide⟩

/-!  The keyword tokenizer's minimum-position bug (claim C3). -/

/-- C3 (failing input): backward search in "a b" for keyword "a" with
minimum position 2 returns position 0 — a bounded occurrence strictly
before the requested minimum — although no bounded occurrence at or after
position 2 exists, so the claimed result is "not found". The bounds check
`pos < search_start_pos` at uciloop.cc:91 has an empty body. -/
theorem uci_c3_failing_eval :
    FindBoundedKeywordOccurrence "a b".data "a".data 2 true = some 0
    ∧ IsBoundedOcc "a b".data "a".data 0 = true
    ∧ ¬ (2 ≤ (0 : Nat))
    ∧ (∀ q : Nat, 2 ≤ q → IsBoundedOcc "a b".data "a".data q = false) := by
  refine ⟨by decide, by decide, by decide, ?_⟩
  intro q hq
  match q, hq with
  | 2, _ => decide
  | (n + 3), _ =>
    have h1 : decide (n + 3 + ("a".data).length ≤ ("a b".data).length) = false := by
      rw [show ("a".data).length = 1 from rfl, show ("a b".data).length = 3 from rfl]
      simp
    simp [IsBoundedOcc, IsOcc, h1]

/-- Witness for C3's failing-input theorem at a concrete position. -/
theorem uci_c3_witness :
    2 ≤ 5 ∧ IsBoundedOcc "a b".data "a".data 5 = false :=
  ⟨by decide, uci_c3_failing_eval.2.2.2 5 (by decide)⟩

/-!  The position command (claim C6). -/

/-- C6: dispatching `position` fails with the fen/startpos XOR error exactly
when both or neither of "fen" and "startpos" are present; otherwise exactly
one SetPosition call is made, with the given FEN (or the standard start FEN
when the fen value is empty) and the whitespace-split move list; and the
spec's three worked examples. -/
theorem uci_c6_position :
    (∀ ps : List (String × String), ContainsKey ps "fen" = ContainsKey ps "startpos" →
      DispatchCommand "position" ps = ([], .error .positionXor))
  ∧ (∀ ps : List (String × String), ContainsKey ps "fen" ≠ ContainsKey ps "startpos" →
      DispatchCommand "position" ps =
        ([.setPosition
            (if GetOrEmpty ps "fen" = "" then kStartposFen else GetOrEmpty ps "fen")
            (StrSplitAtWhitespace (GetOrEmpty ps "moves"))], .ok true))
  ∧ ProcessLine "position fen F1 moves e2e4 e7e5" =
      ([.setPosition "F1" ["e2e4", "e7e5"]], .ok true)
  ∧ ProcessLine "position startpos" = ([.setPosition kStartposFen []], .ok true)
  ∧ ProcessLine "position fen F1 startpos" = ([], .error .positionXor) := by
  have hred : ∀ ps : List (String × String),
      DispatchCommand "position" ps =
        (if ContainsKey ps "fen" = ContainsKey ps "startpos" then
          ([], .error .positionXor)
        else
          ([.setPosition
              (if GetOrEmpty ps "fen" = "" then kStartposFen else GetOrEmpty ps "fen")
              (StrSplitAtWhitespace (GetOrEmpty ps "moves"))], .ok true)) :=
    fun ps => rfl
  refine ⟨?_, ?_, by decide, by decide, by decide⟩
  · intro ps h
    rw [hred ps, if_pos h]
  · intro ps h
    rw [hred ps, if_neg h]

/-- Witness for C6: both directions at concrete parameter maps. -/
theorem uci_c6_witness :
    DispatchCommand "position" [("fen", "F1"), ("startpos", "")] =
      ([], .error .positionXor)
    ∧ DispatchCommand "position" [("startpos", "")] =
        ([.setPosition kStartposFen []], .ok true) :=
  ⟨uci_c6_position.1 [("fen", "F1"), ("startpos", "")] (by decide),
   uci_c6_position.2.1 [("startpos", "")] (by decide)⟩

/-!  Numeric parsing for the go command (claim C8). -/

/-- C8 counterexample: the empty value — produced by a bare "go depth" —
fails with the distinct "expected value after depth" error, a third failure
kind that is neither "invalid value" nor "out of range". -/
theorem uci_c8_cex :
    GetNumeric [("depth", "")] "depth" = .error (.expectedValue "depth")
    ∧ GetNumeric [("depth", "")] "depth" ≠ .error (.invalidValue "")
    ∧ GetNumeric [("depth", "")] "depth" ≠ .error (.outOfRangeValue "")
    ∧ ProcessLine "go depth" = ([], .error (.expectedValue "depth")) :=
  ⟨by decide, by decide, by decide, by decide⟩

/-- C8 (amended): a go keyword's value has exactly three failure kinds —
empty value → "expected value after <key>", no parsable leading integer →
"invalid value", leading integer outside the 32-bit int range →
"out of range value" — and every other value yields the parsed signed
integer; with concrete instances of all four outcomes at the int
boundaries. -/
theorem uci_c8_numeric (ps : List (String × String)) (key v : String)
    (hv : ps.lookup key = some v) :
    ((v = "" → GetNumeric ps key = .error (.expectedValue key))
      ∧ (v ≠ "" → stoi v = .invalidArgument → GetNumeric ps key = .error (.invalidValue v))
      ∧ (v ≠ "" → stoi v = .outOfRange → GetNumeric ps key = .error (.outOfRangeValue v))
      ∧ (∀ n : Int, v ≠ "" → stoi v = .ok n → GetNumeric ps key = .ok n))
    ∧ stoi "abc" = .invalidArgument
    ∧ stoi "2147483647" = .ok 2147483647
    ∧ stoi "2147483648" = .outOfRange
    ∧ stoi "-2147483648" = .ok (-2147483648)
    ∧ stoi "-2147483649" = .outOfRange
    ∧ ProcessLine "go depth abc" = ([], .error (.invalidValue "abc")) := by
  refine ⟨⟨?_, ?_, ?_, ?_⟩, by decide, by decide, by decide, by decide, by decide, by decide⟩
  · intro he
    unfold GetNumeric
    rw [hv]
    dsimp only
    rw [if_pos he]
  · intro hne hs
    unfold GetNumeric
    rw [hv]
    dsimp only
    rw [if_neg hne, hs]
  · intro hne hs
    unfold GetNumeric
    rw [hv]
    dsimp only
    rw [if_neg hne, hs]
  · intro n hne hs
    unfold GetNumeric
    rw [hv]
    dsimp only
    rw [if_neg hne, hs]

/-- Witness for C8: a plain decimal value parses to its integer. -/
theorem uci_c8_witness :
    GetNumeric [("depth", "12")] "depth" = .ok 12 :=
  (uci_c8_numeric [("depth", "12")] "depth" "12" (by decide)).1.2.2.2 12
    (by decide) (by decide)

/-!  The go command (claim C7). -/

/-- Parsed integer of a key's value, when numeric parsing succeeds. -/
def numValD (ps : List (String × String)) (key : String) : Int :=
  match GetNumeric ps key with
  | .ok n => n
  | _ => 0

/-- The go request as the claim describes it: each boolean flag set exactly
when its keyword is present, the search-move list as the whitespace-split
"searchmoves" value, each numeric field set to the parsed signed integer
exactly when its keyword is present, and unset otherwise. -/
def mkGoExpected (ps : List (String × String)) : GoParams where
  wtime := if ContainsKey ps "wtime" then some (numValD ps "wtime") else none
  btime := if ContainsKey ps "btime" then some (numValD ps "btime") else none
  winc := if ContainsKey ps "winc" then some (numValD ps "winc") else none
  binc := if ContainsKey ps "binc" then some (numValD ps "binc") else none
  movestogo := if ContainsKey ps "movestogo" then some (numValD ps "movestogo") else none
  depth := if ContainsKey ps "depth" then some (numValD ps "depth") else none
  mate := if ContainsKey ps "mate" then some (numValD ps "mate") else none
  nodes := if ContainsKey ps "nodes" then some (numValD ps "nodes") else none
  movetime := if ContainsKey ps "movetime" then some (numValD ps "movetime") else none
  infinite := ContainsKey ps "infinite"
  ponder := ContainsKey ps "ponder"
  searchmoves := StrSplitAtWhitespace (GetOrEmpty ps "searchmoves")

theorem getOrEmpty_of_not_contains (ps : List (String × String)) (key : String)
    (h : ContainsKey ps key = false) : GetOrEmpty ps key = "" := by
  unfold GetOrEmpty
  unfold ContainsKey at h
  cases hl : ps.lookup key with
  | none => rfl
  | some v =>
    rw [hl] at h
    simp at h

/-- Reference form of the numeric-keyword fold. -/
def goFold (ps : List (String × String)) :
    List (String × (GoParams → Int → GoParams)) → GoParams → GoParams
  | [], g => g
  | (key, set) :: rest, g =>
    goFold ps rest (if ContainsKey ps key then set g (numValD ps key) else g)

theorem applyNumKeys_ok (ps : List (String × String)) :
    ∀ (L : List (String × (GoParams → Int → GoParams))) (g : GoParams),
    (∀ p ∈ L, ContainsKey ps p.1 = true → ∃ n, GetNumeric ps p.1 = .ok n) →
    applyNumKeys ps L g = .ok (goFold ps L g) := by
  intro L
  induction L with
  | nil => intro g _; rfl
  | cons p rest ih =>
    intro g hL
    obtain ⟨key, set⟩ := p
    unfold applyNumKeys goFold
    by_cases hc : ContainsKey ps key = true
    · obtain ⟨n, hn⟩ := hL (key, set) (by simp) hc
      rw [if_pos hc, if_pos hc, hn]
      dsimp only
      rw [show numValD ps key = n by unfold numValD; rw [hn]]
      exact ih _ (fun q hq hcq => hL q (by simp [hq]) hcq)
    · rw [if_neg hc, if_neg hc]
      exact ih _ (fun q hq hcq => hL q (by simp [hq]) hcq)

theorem goParams_eq (a b : GoParams)
    (h1 : a.wtime = b.wtime) (h2 : a.btime = b.btime) (h3 : a.winc = b.winc)
    (h4 : a.binc = b.binc) (h5 : a.movestogo = b.movestogo) (h6 : a.depth = b.depth)
    (h7 : a.mate = b.mate) (h8 : a.nodes = b.nodes) (h9 : a.movetime = b.movetime)
    (h10 : a.infinite = b.infinite) (h11 : a.ponder = b.ponder)
    (h12 : a.searchmoves = b.searchmoves) : a = b := by
  cases a
  cases b
  simp only [GoParams.mk.injEq]
  exact ⟨h1, h2, h3, h4, h5, h6, h7, h8, h9, h10, h11, h12⟩

theorem goFold_wtime (ps : List (String × String)) (g : GoParams) :
    (goFold ps goNumSetters g).wtime =
      if ContainsKey ps "wtime" then some (numValD ps "wtime") else g.wtime := by
  simp only [goNumSetters, goFold, apply_ite GoParams.wtime, ite_self]

theorem goFold_btime (ps : List (String × String)) (g : GoParams) :
    (goFold ps goNumSetters g).btime =
      if ContainsKey ps "btime" then some (numValD ps "btime") else g.btime := by
  simp only [goNumSetters, goFold, apply_ite GoParams.btime, ite_self]

theorem goFold_winc (ps : List (String × String)) (g : GoParams) :
    (goFold ps goNumSetters g).winc =
      if ContainsKey ps "winc" then some (numValD ps "winc") else g.winc := by
  simp only [goNumSetters, goFold, apply_ite GoParams.winc, ite_self]

theorem goFold_binc (ps : List (String × String)) (g : GoParams) :
    (goFold ps goNumSetters g).binc =
      if ContainsKey ps "binc" then some (numValD ps "binc") else g.binc := by
  simp only [goNumSetters, goFold, apply_ite GoParams.binc, ite_self]

theorem goFold_movestogo (ps : List (String × String)) (g : GoParams) :
    (goFold ps goNumSetters g).movestogo =
      if ContainsKey ps "movestogo" then some (numValD ps "movestogo") else g.movestogo := by
  simp only [goNumSetters, goFold, apply_ite GoParams.movestogo, ite_self]

theorem goFold_depth (ps : List (String × String)) (g : GoParams) :
    (goFold ps goNumSetters g).depth =
      if ContainsKey ps "depth" then some (numValD ps "depth") else g.depth := by
  simp only [goNumSetters, goFold, apply_ite GoParams.depth, ite_self]

theorem goFold_mate (ps : List (String × String)) (g : GoParams) :
    (goFold ps goNumSetters g).mate =
      if ContainsKey ps "mate" then some (numValD ps "mate") else g.mate := by
  simp only [goNumSetters, goFold, apply_ite GoParams.mate, ite_self]

theorem goFold_nodes (ps : List (String × String)) (g : GoParams) :
    (goFold ps goNumSetters g).nodes =
      if ContainsKey ps "nodes" then some (numValD ps "nodes") else g.nodes := by
  simp only [goNumSetters, goFold, apply_ite GoParams.nodes, ite_self]

theorem goFold_movetime (ps : List (String × String)) (g : GoParams) :
    (goFold ps goNumSetters g).movetime =
      if ContainsKey ps "movetime" then some (numValD ps "movetime") else g.movetime := by
  simp only [goNumSetters, goFold, apply_ite GoParams.movetime, ite_self]

theorem goFold_infinite (ps : List (String × String)) (g : GoParams) :
    (goFold ps goNumSetters g).infinite = g.infinite := by
  simp only [goNumSetters, goFold, apply_ite GoParams.infinite, ite_self]

theorem goFold_ponder (ps : List (String × String)) (g : GoParams) :
    (goFold ps goNumSetters g).ponder = g.ponder := by
  simp only [goNumSetters, goFold, apply_ite GoParams.ponder, ite_self]

theorem goFold_searchmoves (ps : List (String × String)) (g : GoParams) :
    (goFold ps goNumSetters g).searchmoves = g.searchmoves := by
  simp only [goNumSetters, goFold, apply_ite GoParams.searchmoves, ite_self]

theorem flag_ok {c : Bool} {v : String} (e : UciErr) (a b : GoParams)
    (hv : c = true → v = "") :
    (if c = true then (if v ≠ "" then Except.error e else Except.ok a) else Except.ok b) =
      Except.ok (if c = true then a else b) := by
  cases c
  · simp
  · simp [hv rfl]

theorem buildGo_ok (ps : List (String × String))
    (hinf : ContainsKey ps "infinite" = true → GetOrEmpty ps "infinite" = "")
    (hpond : ContainsKey ps "ponder" = true → GetOrEmpty ps "ponder" = "")
    (hnum : ∀ p ∈ goNumSetters, ContainsKey ps p.1 = true → ∃ n, GetNumeric ps p.1 = .ok n) :
    buildGo ps = .ok (mkGoExpected ps) := by
  unfold buildGo
  dsimp only
  rw [flag_ok (.unexpectedTrailing (GetOrEmpty ps "infinite")) _ _ hinf]
  dsimp only
  rw [flag_ok (.unexpectedTrailing (GetOrEmpty ps "ponder")) _ _ hpond]
  dsimp only
  rw [applyNumKeys_ok ps goNumSetters _ hnum]
  congr 1
  apply goParams_eq
  · rw [goFold_wtime]
    simp only [mkGoExpected, apply_ite GoParams.wtime, ite_self]
  · rw [goFold_btime]
    simp only [mkGoExpected, apply_ite GoParams.btime, ite_self]
  · rw [goFold_winc]
    simp only [mkGoExpected, apply_ite GoParams.winc, ite_self]
  · rw [goFold_binc]
    simp only [mkGoExpected, apply_ite GoParams.binc, ite_self]
  · rw [goFold_movestogo]
    simp only [mkGoExpected, apply_ite GoParams.movestogo, ite_self]
  · rw [goFold_depth]
    simp only [mkGoExpected, apply_ite GoParams.depth, ite_self]
  · rw [goFold_mate]
    simp only [mkGoExpected, apply_ite GoParams.mate, ite_self]
  · rw [goFold_nodes]
    simp only [mkGoExpected, apply_ite GoParams.nodes, ite_self]
  · rw [goFold_movetime]
    simp only [mkGoExpected, apply_ite GoParams.movetime, ite_self]
  · rw [goFold_infinite]
    simp only [mkGoExpected, apply_ite GoParams.infinite, ite_self]
    cases ContainsKey ps "infinite" <;> simp
  · rw [goFold_ponder]
    simp only [mkGoExpected, apply_ite GoParams.ponder, ite_self]
    cases ContainsKey ps "ponder" <;> simp
  · rw [goFold_searchmoves]
    by_cases hcs : ContainsKey ps "searchmoves" = true
    · simp only [mkGoExpected, apply_ite GoParams.searchmoves, ite_self, hcs, if_true]
    · rw [Bool.not_eq_true] at hcs
      simp only [mkGoExpected, apply_ite GoParams.searchmoves, ite_self, hcs,
        Bool.false_eq_true, if_false, getOrEmpty_of_not_contains ps "searchmoves" hcs,
        show StrSplitAtWhitespace "" = [] from rfl]

theorem buildGo_err (ps : List (String × String))
    (h : (ContainsKey ps "infinite" = true ∧ GetOrEmpty ps "infinite" ≠ "")
       ∨ (ContainsKey ps "ponder" = true ∧ GetOrEmpty ps "ponder" ≠ "")) :
    ∃ v, buildGo ps = .error (.unexpectedTrailing v) := by
  unfold buildGo
  dsimp only
  by_cases hinf : ContainsKey ps "infinite" = true ∧ GetOrEmpty ps "infinite" ≠ ""
  · refine ⟨GetOrEmpty ps "infinite", ?_⟩
    rw [if_pos hinf.1, if_pos hinf.2]
  · rcases h with hcase | hcase
    · exact absurd hcase hinf
    · refine ⟨GetOrEmpty ps "ponder", ?_⟩
      rw [flag_ok (.unexpectedTrailing (GetOrEmpty ps "infinite")) _ _
        (fun hc => of_not_not (fun hv => hinf ⟨hc, hv⟩))]
      dsimp only
      rw [if_pos hcase.1, if_pos hcase.2]

/-- C7: dispatching `go` fails with an "Unexpected token" error whenever the
`infinite` or `ponder` keyword carries a non-empty trailing value;
otherwise, when every present numeric keyword parses, exactly one Go call
is made whose request has each boolean flag set exactly when its keyword is
present, the whitespace-split searchmoves list, and each numeric field set
to the parsed signed integer exactly when its keyword is present (absent
keywords leave their fields unset); with the spec's two worked examples. -/
theorem uci_c7_go :
    (∀ ps : List (String × String),
      ((ContainsKey ps "infinite" = true ∧ GetOrEmpty ps "infinite" ≠ "")
        ∨ (ContainsKey ps "ponder" = true ∧ GetOrEmpty ps "ponder" ≠ "")) →
      ∃ v, DispatchCommand "go" ps = ([], .error (.unexpectedTrailing v)))
  ∧ (∀ ps : List (String × String),
      (ContainsKey ps "infinite" = true → GetOrEmpty ps "infinite" = "") →
      (ContainsKey ps "ponder" = true → GetOrEmpty ps "ponder" = "") →
      (∀ p ∈ goNumSetters, ContainsKey ps p.1 = true → ∃ n, GetNumeric ps p.1 = .ok n) →
      DispatchCommand "go" ps = ([.go (mkGoExpected ps)], .ok true))
  ∧ ProcessLine "go wtime 100 btime 200 movestogo 5" =
      ([.go { wtime := some 100, btime := some 200, movestogo := some 5 }], .ok true)
  ∧ ProcessLine "go infinite ponder" =
      ([.go { infinite := true, ponder := true }], .ok true) := by
  have hred : ∀ ps : List (String × String),
      DispatchCommand "go" ps =
        (match buildGo ps with
          | .error e => ([], .error e)
          | .ok g => ([.go g], .ok true)) := fun ps => rfl
  refine ⟨?_, ?_, by decide, by decide⟩
  · intro ps h
    obtain ⟨v, hv⟩ := buildGo_err ps h
    refine ⟨v, ?_⟩
    rw [hred ps, hv]
  · intro ps h1 h2 h3
    rw [hred ps, buildGo_ok ps h1 h2 h3]

/-- Witness for C7: a trailing token after `infinite` errors, and a lone
`wtime` builds the expected request. -/
theorem uci_c7_witness :
    (∃ v, DispatchCommand "go" [("infinite", "5")] = ([], .error (.unexpectedTrailing v)))
    ∧ DispatchCommand "go" [("wtime", "100")] =
        ([.go (mkGoExpected [("wtime", "100")])], .ok true) := by
  constructor
  · exact uci_c7_go.1 [("infinite", "5")] (Or.inl ⟨by decide, by decide⟩)
  · refine uci_c7_go.2.1 [("wtime", "100")] (by decide) (by decide) ?_
    intro p hp hc
    simp only [goNumSetters, List.mem_cons, List.not_mem_nil, or_false] at hp
    rcases hp with rfl | rfl | rfl | rfl | rfl | rfl | rfl | rfl | rfl
    · exact ⟨100, by decide⟩
    all_goals exact absurd hc (by decide)

/-!  The response formatter (claims C4 and C5). -/

theorem catStr_nil : catStr [] = "" := rfl

theorem catStr_cons (x : String) (l : List String) :
    catStr (x :: l) = x ++ catStr l := rfl

theorem catStr_append (a b : List String) : catStr (a ++ b) = catStr a ++ catStr b := by
  induction a with
  | nil => simp [catStr_nil]
  | cons x xs ih =>
    rw [List.cons_append, catStr_cons, catStr_cons, ih, String.append_assoc]

theorem catMap_ite {α : Type} (c : Prop) [Decidable c] (x : α) (r : α → String) :
    catStr ((if c then [x] else []).map r) = if c then r x else "" := by
  split
  · rw [List.map_cons, List.map_nil, catStr_cons, catStr_nil, String.append_empty]
  · rfl

theorem mem_ite_single {α : Type} {x y : α} {c : Prop} [Decidable c] :
    (x ∈ (if c then [y] else [])) ↔ c ∧ x = y := by
  split <;> simp_all

/-- Bridge for C4: the thinking-info line is exactly "info" followed by the
rendered tagged field list. -/
theorem thinking_bridge (opts : EngineOptions) (info : ThinkingInfo) :
    FormatThinkingInfo opts info =
      "info" ++ catStr ((thinkingFieldList opts info).map (renderInfoField opts.chess960)) := by
  obtain ⟨player, game_id, is_black, depth, seldepth, time, nodes, mate, score, wdl,
    moves_left, hashfull, nps, tb_hits, multipv, pv, comment⟩ := info
  cases is_black <;> cases mate <;> cases score <;> cases wdl <;> cases moves_left <;>
    simp only [FormatThinkingInfo, thinkingFieldList, renderInfoField, List.map_append,
      catStr_append, catMap_ite, List.map_nil, List.map_cons, catStr_nil, catStr_cons,
      String.append_empty, String.empty_append, String.append_assoc]

/-- A score field of a thinking-info line (mate-distance or centipawn). -/
def isScoreField : InfoField → Bool
  | .scoreMate _ => true
  | .scoreCp _ => true
  | _ => false

theorem wdl_eq_mk (t : Wdl) (w d l : Int) :
    (t = ⟨w, d, l⟩) ↔ (t.w = w ∧ t.d = d ∧ t.l = l) := by
  cases t
  simp [Wdl.mk.injEq]

/-- C4 counterexample: an event with both a mate score and a centipawn score
set is formatted with BOTH score fields — "score mate 3" followed by
"score cp 50" — not with the mate score only. -/
theorem uci_c4_cex :
    FormatThinkingInfo {} { mate := some 3, score := some 50 } =
      "info score mate 3 score cp 50"
    ∧ InfoField.scoreCp 50 ∈ thinkingFieldList {} { mate := some 3, score := some 50 }
    ∧ InfoField.scoreMate 3 ∈ thinkingFieldList {} { mate := some 3, score := some 50 } :=
  ⟨by decide, by decide, by decide⟩

/-- C4 (amended): the thinking-info line is "info" followed by its rendered
field list; the mate score field is emitted iff the mate field is set, and
the centipawn field iff the score field is set — when both are set both are
emitted, the mate score first; a set depth is emitted floored to a minimum
of 1; the win/draw/loss triple is emitted iff it is set and the WDL display
option is enabled; the moves-left estimate iff it is set and its display
option is enabled. -/
theorem uci_c4_thinking :
    (∀ (opts : EngineOptions) (info : ThinkingInfo),
      FormatThinkingInfo opts info =
        "info" ++ catStr ((thinkingFieldList opts info).map (renderInfoField opts.chess960)))
  ∧ (∀ (opts : EngineOptions) (info : ThinkingInfo) (m : Int),
      InfoField.scoreMate m ∈ thinkingFieldList opts info ↔ info.mate = some m)
  ∧ (∀ (opts : EngineOptions) (info : ThinkingInfo) (s : Int),
      InfoField.scoreCp s ∈ thinkingFieldList opts info ↔ info.score = some s)
  ∧ (∀ (opts : EngineOptions) (info : ThinkingInfo) (m s : Int),
      info.mate = some m → info.score = some s →
      (thinkingFieldList opts info).filter isScoreField =
        [InfoField.scoreMate m, InfoField.scoreCp s])
  ∧ (∀ (opts : EngineOptions) (info : ThinkingInfo) (d : Int),
      InfoField.fdepth d ∈ thinkingFieldList opts info ↔
        info.depth ≥ 0 ∧ d = max info.depth 1)
  ∧ (∀ (opts : EngineOptions) (info : ThinkingInfo) (w d l : Int),
      InfoField.wdl w d l ∈ thinkingFieldList opts info ↔
        info.wdl = some ⟨w, d, l⟩ ∧ opts.showWdl = true)
  ∧ (∀ (opts : EngineOptions) (info : ThinkingInfo) (n : Int),
      InfoField.movesleft n ∈ thinkingFieldList opts info ↔
        info.moves_left = some n ∧ opts.showMovesleft = true) := by
  refine ⟨thinking_bridge, ?_, ?_, ?_, ?_, ?_, ?_⟩
  · intro opts info m
    obtain ⟨player, game_id, is_black, depth, seldepth, time, nodes, mate, score, wdl,
      moves_left, hashfull, nps, tb_hits, multipv, pv, comment⟩ := info
    cases is_black <;> cases mate <;> cases score <;> cases wdl <;> cases moves_left <;>
      simp only [thinkingFieldList, List.mem_append, mem_ite_single, List.mem_singleton,
        List.not_mem_nil, or_false, false_or, and_false, false_and, and_true, true_and,
        InfoField.scoreMate.injEq, Option.some.injEq, reduceCtorEq, iff_false, not_or,
        not_and, or_self] <;>
      (try exact eq_comm) <;> (try simp)
  · intro opts info s
    obtain ⟨player, game_id, is_black, depth, seldepth, time, nodes, mate, score, wdl,
      moves_left, hashfull, nps, tb_hits, multipv, pv, comment⟩ := info
    cases is_black <;> cases mate <;> cases score <;> cases wdl <;> cases moves_left <;>
      simp only [thinkingFieldList, List.mem_append, mem_ite_single, List.mem_singleton,
        List.not_mem_nil, or_false, false_or, and_false, false_and, and_true, true_and,
        InfoField.scoreCp.injEq, Option.some.injEq, reduceCtorEq, iff_false, not_or,
        not_and, or_self] <;>
      (try exact eq_comm) <;> (try simp)
  · intro opts info m s hm hs
    obtain ⟨player, game_id, is_black, depth, seldepth, time, nodes, mate, score, wdl,
      moves_left, hashfull, nps, tb_hits, multipv, pv, comment⟩ := info
    simp only at hm hs
    subst hm
    subst hs
    cases is_black <;> cases wdl <;> cases moves_left <;>
      simp [thinkingFieldList, List.filter_append, apply_ite (List.filter isScoreField),
        ite_self, isScoreField, List.filter_cons]
  · intro opts info d
    obtain ⟨player, game_id, is_black, depth, seldepth, time, nodes, mate, score, wdl,
      moves_left, hashfull, nps, tb_hits, multipv, pv, comment⟩ := info
    cases is_black <;> cases mate <;> cases score <;> cases wdl <;> cases moves_left <;>
      simp only [thinkingFieldList, List.mem_append, mem_ite_single, List.mem_singleton,
        List.not_mem_nil, or_false, false_or, and_false, false_and, and_true, true_and,
        InfoField.fdepth.injEq, Option.some.injEq, reduceCtorEq, iff_false, not_or,
        not_and, or_self] <;>
      (try exact eq_comm) <;> (try simp)
  · intro opts info w d l
    obtain ⟨player, game_id, is_black, depth, seldepth, time, nodes, mate, score, wdl,
      moves_left, hashfull, nps, tb_hits, multipv, pv, comment⟩ := info
    cases is_black <;> cases mate <;> cases score <;> cases wdl <;> cases moves_left <;>
      simp only [thinkingFieldList, List.mem_append, mem_ite_single, List.mem_singleton,
        List.not_mem_nil, or_false, false_or, and_false, false_and, and_true, true_and,
        InfoField.wdl.injEq, Option.some.injEq, reduceCtorEq, iff_false, not_or,
        not_and, or_self, wdl_eq_mk] <;>
      (try exact eq_comm) <;>
      (try exact ⟨fun ⟨hs2, h1, h2, h3⟩ => ⟨⟨h1.symm, h2.symm, h3.symm⟩, hs2⟩,
        fun ⟨⟨h1, h2, h3⟩, hs2⟩ => ⟨hs2, h1.symm, h2.symm, h3.symm⟩⟩)
  · intro opts info n
    obtain ⟨player, game_id, is_black, depth, seldepth, time, nodes, mate, score, wdl,
      moves_left, hashfull, nps, tb_hits, multipv, pv, comment⟩ := info
    cases is_black <;> cases mate <;> cases score <;> cases wdl <;> cases moves_left <;>
      simp only [thinkingFieldList, List.mem_append, mem_ite_single, List.mem_singleton,
        List.not_mem_nil, or_false, false_or, and_false, false_and, and_true, true_and,
        InfoField.movesleft.injEq, Option.some.injEq, reduceCtorEq, iff_false, not_or,
        not_and, or_self] <;>
      (try exact eq_comm) <;>
      (try exact ⟨fun ⟨hs2, h1⟩ => ⟨h1.symm, hs2⟩, fun ⟨h1, hs2⟩ => ⟨hs2, h1.symm⟩⟩)

/-- Witness for C4 at concrete events: mate and cp fields present exactly
when set; both score fields in order when both set; wdl present under the
enabled default option, absent when the option is disabled. -/
theorem uci_c4_witness :
    InfoField.scoreMate 3 ∈ thinkingFieldList {} { mate := some 3 }
    ∧ (thinkingFieldList {} { mate := some 3, score := some 50 }).filter isScoreField =
        [InfoField.scoreMate 3, InfoField.scoreCp 50]
    ∧ InfoField.wdl 10 20 30 ∈ thinkingFieldList {} { wdl := some ⟨10, 20, 30⟩ }
    ∧ InfoField.fdepth 1 ∈ thinkingFieldList {} { depth := 0 } := by
  refine ⟨?_, ?_, ?_, ?_⟩
  · exact (uci_c4_thinking.2.1 {} { mate := some 3 } 3).mpr rfl
  · exact uci_c4_thinking.2.2.2.1 {} { mate := some 3, score := some 50 } 3 50 rfl rfl
  · exact (uci_c4_thinking.2.2.2.2.2.1 {} { wdl := some ⟨10, 20, 30⟩ } 10 20 30).mpr
      ⟨rfl, rfl⟩
  · exact (uci_c4_thinking.2.2.2.2.1 {} { depth := 0 } 1).mpr ⟨by decide, by decide⟩

/-- Bridge for C5: the best-move line is exactly "bestmove ", the move, and
the rendered tagged optional-field list, in this order. -/
theorem bestmove_bridge (opts : EngineOptions) (info : BestMoveInfo) :
    OutputBestMove opts info =
      "bestmove " ++ info.bestmove.render opts.chess960
        ++ catStr ((bestMoveFieldList info).map (renderBestMoveField opts.chess960)) := by
  obtain ⟨bestmove, ponder, player, game_id, is_black⟩ := info
  cases is_black <;>
    simp only [OutputBestMove, bestMoveFieldList, renderBestMoveField, List.map_append,
      catStr_append, catMap_ite, List.map_nil, List.map_cons, catStr_nil, catStr_cons,
      String.append_empty, String.empty_append, String.append_assoc]

/-- C5 counterexample: a best-move event whose player id is the negative
value -2 (not the sentinel -1) has its player field EMITTED, although the
claim says every negative player id is treated as unset and omitted. -/
theorem uci_c5_cex :
    OutputBestMove {} ⟨⟨"e2e4", "e2e4", false⟩, ⟨"", "", true⟩, -2, -1, none⟩ =
      "bestmove e2e4 player -2"
    ∧ BestMoveField.player (-2) ∈
        bestMoveFieldList ⟨⟨"e2e4", "e2e4", false⟩, ⟨"", "", true⟩, -2, -1, none⟩
    ∧ (-2 : Int) < 0 :=
  ⟨by decide, by decide, by decide⟩

/-- C5 (amended): the best-move line always starts with "bestmove" and the
chosen move, followed by the optional fields in the fixed order ponder,
player, gameid, side; the ponder field is present iff the ponder move is
non-null, the side field iff the side flag is set, and the player and game
id fields are present iff their value differs from the sentinel, which is
exactly -1 (not "any negative value"). -/
theorem uci_c5_bestmove :
    (∀ (opts : EngineOptions) (info : BestMoveInfo),
      OutputBestMove opts info =
        "bestmove " ++ info.bestmove.render opts.chess960
          ++ catStr ((bestMoveFieldList info).map (renderBestMoveField opts.chess960)))
  ∧ (∀ (info : BestMoveInfo) (m : Move),
      BestMoveField.ponderMove m ∈ bestMoveFieldList info ↔
        info.ponder.isNull = false ∧ m = info.ponder)
  ∧ (∀ (info : BestMoveInfo) (n : Int),
      BestMoveField.player n ∈ bestMoveFieldList info ↔
        info.player ≠ -1 ∧ n = info.player)
  ∧ (∀ (info : BestMoveInfo) (n : Int),
      BestMoveField.gameid n ∈ bestMoveFieldList info ↔
        info.game_id ≠ -1 ∧ n = info.game_id)
  ∧ (∀ (info : BestMoveInfo) (b : Bool),
      BestMoveField.side b ∈ bestMoveFieldList info ↔ info.is_black = some b) := by
  refine ⟨bestmove_bridge, ?_, ?_, ?_, ?_⟩
  all_goals
    intro info x
    obtain ⟨bestmove, ponder, player, game_id, is_black⟩ := info
    cases is_black <;>
      simp only [bestMoveFieldList, List.mem_append, mem_ite_single, List.mem_singleton,
        List.not_mem_nil, or_false, false_or, and_false, false_and, and_true, true_and,
        BestMoveField.ponderMove.injEq, BestMoveField.player.injEq,
        BestMoveField.gameid.injEq, BestMoveField.side.injEq, Option.some.injEq,
        reduceCtorEq, iff_false, not_or, not_and, or_self, Bool.not_eq_true] <;>
      (try exact eq_comm) <;> (try simp)

/-- Witness for C5 at concrete events: side and player fields present when
set to non-sentinel values. -/
theorem uci_c5_witness :
    BestMoveField.side true ∈
      bestMoveFieldList ⟨⟨"e2e4", "e2e4", false⟩, ⟨"", "", true⟩, -1, -1, some true⟩
    ∧ BestMoveField.player 7 ∈
      bestMoveFieldList ⟨⟨"e2e4", "e2e4", false⟩, ⟨"", "", true⟩, 7, -1, none⟩ := by
  constructor
  · exact (uci_c5_bestmove.2.2.2.2 _ true).mpr rfl
  · exact (uci_c5_bestmove.2.2.1 _ 7).mpr ⟨by decide, rfl⟩

end Lc0
